import Mathlib

/- Shallow embedding of the chat application's Coordinator (`Hub` in
`hub.go`) and the Connection Worker's timing constants (`client.go`),
together with the admission sequence (`HandleWebSocket` in
`websocket.go`).

The Hub state consists of the global client set, the room mapping and,
for each client, the state of its bounded outbound channel (`send`,
capacity 256).  Channel state is part of the embedded state because the
Hub writes into the channels (non-blocking send with eviction on a full
queue).  Map iteration order is modelled by list order; Go map-set
semantics are modelled by duplicate-free insertion and filtering.
Handlers that synthesize broadcasts additionally return the list of
`Message` values they hand to `handleBroadcast`, in order, so that the
broadcast traffic of each operation is observable. -/

/-- Capacity of a worker's outbound `send` channel (`make(chan []byte, 256)`). -/
def sendCap : Nat := 256

/-- A connected websocket worker (`Client` struct): the room and username are
fixed for the worker's lifetime; `id` stands for the Go pointer identity. -/
structure Client where
  id : Nat
  room : String
  username : String
deriving DecidableEq, Repr

/-- State of a worker's bounded outbound channel: buffered serialized
messages, and whether the Hub has closed it. -/
structure Chan where
  buf : List String
  closed : Bool
deriving DecidableEq, Repr

/-- The wire message (`Message` struct: json fields type/content/room/username). -/
structure Message where
  type : String
  content : String
  room : String
  username : String
deriving DecidableEq, Repr

/-- The room mapping `map[string]map[*Client]bool`, as an association list. -/
abbrev RoomMap := List (String × List Client)

/-- The Hub state: global client set, room mapping, per-client channel state. -/
structure Hub where
  clients : List Client
  rooms : RoomMap
  chans : Client → Chan

/-- Lookup of `h.rooms[r]` (with the `exists` flag as `Option`). -/
def lookupRoom (rooms : RoomMap) (r : String) : Option (List Client) :=
  (rooms.find? (fun p => decide (p.1 = r))).map (fun p => p.2)

/-- The set of workers currently in room `r` (empty when the entry is absent,
as `range` over a missing Go map entry yields nothing). -/
def Hub.roomSet (h : Hub) (r : String) : List Client :=
  (lookupRoom h.rooms r).getD []

/-- Pointwise update of room `r`'s entry (no-op when the entry is absent,
matching `delete`/assignment on a present key). -/
def updateRoom (rooms : RoomMap) (r : String) (f : List Client → List Client) :
    RoomMap :=
  rooms.map (fun p => if p.1 = r then (p.1, f p.2) else p)

/-- Deletion of room `r`'s entry (`delete(h.rooms, r)`). -/
def eraseRoom (rooms : RoomMap) (r : String) : RoomMap :=
  rooms.filter (fun p => decide (p.1 ≠ r))

/-- Replace client `c`'s channel state. -/
def setChan (h : Hub) (c : Client) (ch : Chan) : Hub :=
  { h with chans := fun d => if d = c then ch else h.chans d }

/-- Go map-set insertion `s[c] = true`. -/
def addClient (cs : List Client) (c : Client) : List Client :=
  if c ∈ cs then cs else cs ++ [c]

/-- Body of the fan-out loop in `handleBroadcast` for one client of the room:
non-blocking send into the client's `send` channel; on a full buffer the
client is evicted — its channel is closed and it is deleted from the global
set and from the room's set. -/
def trySendOrEvict (room : String) (w : String) (h : Hub) (c : Client) : Hub :=
  let ch := h.chans c
  if ch.buf.length < sendCap then
    setChan h c { ch with buf := ch.buf ++ [w] }
  else
    let h1 := setChan h c { ch with closed := true }
    { h1 with
      clients := h1.clients.filter (fun d => decide (d ≠ c)),
      rooms := updateRoom h1.rooms room (fun cs => cs.filter (fun d => decide (d ≠ c))) }

/-- The Hub's `handleBroadcast`: serialize the message (`json.Marshal`,
modelled as an arbitrary fallible serializer argument); on failure log and
drop, leaving the state unchanged; otherwise fan out to every client of
`msg.room` with non-blocking send and full-queue eviction. -/
def handleBroadcast (ser : Message → Option String) (h : Hub) (msg : Message) :
    Hub :=
  match ser msg with
  | none => h
  | some w =>
    match lookupRoom h.rooms msg.room with
    | none => h
    | some cs => cs.foldl (trySendOrEvict msg.room w) h

/-- The `online_users` roster message built by `broadcastRoomUsers`: comma-join
of the usernames of the workers currently in the room, with the `Username`
field left at its zero value. -/
def broadcastRoomUsersMsg (h : Hub) (room : String) : Message :=
  { type := "online_users"
    content := String.intercalate "," ((h.roomSet room).map (fun c => c.username))
    room := room
    username := "" }

/-- The Hub's `broadcastRoomUsers`. -/
def broadcastRoomUsers (ser : Message → Option String) (h : Hub) (room : String) :
    Hub :=
  handleBroadcast ser h (broadcastRoomUsersMsg h room)

/-- The `user_left` message synthesized by `handleUnregister`. -/
def userLeftMsg (c : Client) : Message :=
  { type := "user_left"
    content := c.username ++ " left the room"
    room := c.room
    username := c.username }

/-- The `user_joined` message synthesized by `HandleWebSocket`. -/
def userJoinedMsg (c : Client) : Message :=
  { type := "user_joined"
    content := c.username ++ " joined the room"
    room := c.room
    username := c.username }

/-- The state-mutation part of `handleRegister` (lines before its broadcast):
create the room entry if absent, then add the client to the room's set and to
the global set. -/
def registerAdd (h : Hub) (c : Client) : Hub :=
  let rooms0 :=
    if (lookupRoom h.rooms c.room).isSome then h.rooms
    else h.rooms ++ [(c.room, [])]
  { h with
    rooms := updateRoom rooms0 c.room (fun cs => addClient cs c),
    clients := addClient h.clients c }

/-- The Hub's `handleRegister`: add the client, then broadcast the room's
`online_users` roster.  Second component: the broadcasts it synthesizes. -/
def handleRegister (ser : Message → Option String) (h : Hub) (c : Client) :
    Hub × List Message :=
  let h1 := registerAdd h c
  (broadcastRoomUsers ser h1 c.room, [broadcastRoomUsersMsg h1 c.room])

/-- The Hub's `handleUnregister`: no-op on an unknown client; otherwise remove
the client from the global set and its room's set, broadcast `user_left`,
broadcast the updated roster, and delete the room entry if now empty.
Second component: the broadcasts it synthesizes. -/
def handleUnregister (ser : Message → Option String) (h : Hub) (c : Client) :
    Hub × List Message :=
  if c ∈ h.clients then
    let h1 : Hub :=
      { h with
        clients := h.clients.filter (fun d => decide (d ≠ c)),
        rooms := updateRoom h.rooms c.room (fun cs => cs.filter (fun d => decide (d ≠ c))) }
    let h2 := handleBroadcast ser h1 (userLeftMsg c)
    let m2 := broadcastRoomUsersMsg h2 c.room
    let h3 := handleBroadcast ser h2 m2
    let h4 : Hub :=
      if (h3.roomSet c.room).isEmpty then { h3 with rooms := eraseRoom h3.rooms c.room }
      else h3
    (h4, [userLeftMsg c, m2])
  else (h, [])

/-- The `case message := <-h.broadcast` arm of the Hub loop (Route): a routed
message is handled by `handleBroadcast` and synthesizes no further
broadcasts. -/
def routeMessage (ser : Message → Option String) (h : Hub) (msg : Message) :
    Hub × List Message :=
  (handleBroadcast ser h msg, [])

/-- The admission sequence of `HandleWebSocket` after a successful upgrade:
a client with a fresh outbound channel of capacity 256 is sent to the
register intake, then a `user_joined` message is sent to the broadcast
intake.  Second component: all broadcasts synthesized, in processing
order. -/
def handleWebSocket (ser : Message → Option String) (h : Hub) (c : Client) :
    Hub × List Message :=
  let h0 := setChan h c { buf := [], closed := false }
  let r1 := handleRegister ser h0 c
  let h2 := handleBroadcast ser r1.1 (userJoinedMsg c)
  (h2, r1.2 ++ [userJoinedMsg c])

/-- Model of `json.Marshal` on `Message` (field order and names as in the
struct tags); on this type Go's marshaller succeeds. -/
def jsonMarshal (m : Message) : Option String :=
  some ("\x7b\"type\":\"" ++ m.type ++ "\",\"content\":\"" ++ m.content ++
    "\",\"room\":\"" ++ m.room ++ "\",\"username\":\"" ++ m.username ++ "\"\x7d")

/-- Nanoseconds per second (`time.Second`). -/
def second : Nat := 1000000000

/-- Time allowed to write a message to the peer (`writeWait`). -/
def writeWait : Nat := 10 * second

/-- Time allowed to read the next pong message from the peer (`pongWait`). -/
def pongWait : Nat := 60 * second

/-- Ping period (`pingPeriod = (pongWait * 9) / 10`). -/
def pingPeriod : Nat := pongWait * 9 / 10

/-- Maximum message size allowed from the peer (`maxMessageSize`). -/
def maxMessageSize : Nat := 512

/-- The empty Hub (`NewHub`), with every absent client given the zero
channel state. -/
def hubEmpty : Hub :=
  { clients := [], rooms := [], chans := fun _ => { buf := [], closed := false } }

/-- Concrete worker fixtures. -/
def alice : Client := { id := 1, room := "lobby", username := "alice" }

/-- Second worker in the lobby. -/
def bob : Client := { id := 2, room := "lobby", username := "bob" }

/-- Worker in a different room. -/
def carol : Client := { id := 3, room := "attic", username := "carol" }

/-- A chat message routed to the lobby. -/
def chatMsg : Message :=
  { type := "chat", content := "hi", room := "lobby", username := "alice" }

/-- A saturated outbound channel (256 pending writes). -/
def fullChan : Chan := { buf := List.replicate 256 "x", closed := false }

/-- Serialized wire form of `chatMsg`. -/
def wChat : String := (jsonMarshal chatMsg).getD ""

/-- Hub reached by admitting alice and then routing 254 chat messages: her
queue holds the 2 admission broadcasts plus 254 chats, 256 in total. -/
def hubSaturated : Hub :=
  (List.replicate 254 chatMsg).foldl (fun h m => (routeMessage jsonMarshal h m).1)
    (handleWebSocket jsonMarshal hubEmpty alice).1

/-- Two lobby members, alice with a saturated queue. -/
def hubTwo : Hub :=
  { clients := [alice, bob],
    rooms := [("lobby", [alice, bob])],
    chans := fun d => if d = alice then fullChan else { buf := [], closed := false } }

/-- Two rooms with one member each. -/
def hubIso : Hub :=
  { clients := [alice, carol],
    rooms := [("lobby", [alice]), ("attic", [carol])],
    chans := fun _ => { buf := [], closed := false } }

/-- C9: the Connection Worker's timing constants: read-liveness deadline 60s,
probe interval 90% of it (54s, strictly less), per-write deadline 10s, and
maximum inbound unit 512 bytes. -/
theorem heartbeat_timing_constants :
    pongWait = 60 * second ∧
    pingPeriod = pongWait * 9 / 10 ∧
    pingPeriod = 54 * second ∧
    pingPeriod < pongWait ∧
    writeWait = 10 * second ∧
    maxMessageSize = 512 := by
  refine ⟨rfl, rfl, by norm_num [pingPeriod, pongWait, second], ?_, rfl, rfl⟩
  norm_num [pingPeriod, pongWait, second]

/- Lookup lemmas for the association-list room mapping. -/

theorem lookupRoom_nil (r : String) : lookupRoom [] r = none := rfl

theorem lookupRoom_cons_pos (p : String × List Client) (ps : RoomMap) (r : String)
    (hp : p.1 = r) : lookupRoom (p :: ps) r = some p.2 := by
  unfold lookupRoom
  rw [List.find?_cons_of_pos _ (by simpa using hp)]
  rfl

theorem lookupRoom_cons_neg (p : String × List Client) (ps : RoomMap) (r : String)
    (hp : p.1 ≠ r) : lookupRoom (p :: ps) r = lookupRoom ps r := by
  unfold lookupRoom
  rw [List.find?_cons_of_neg _ (by simpa using hp)]

theorem lookupRoom_updateRoom (rooms : RoomMap) (r r' : String)
    (f : List Client → List Client) :
    lookupRoom (updateRoom rooms r f) r' =
      if r' = r then (lookupRoom rooms r).map f else lookupRoom rooms r' := by
  induction rooms with
  | nil =>
    by_cases hrr : r' = r <;> simp [updateRoom, lookupRoom_nil, hrr]
  | cons p ps ih =>
    have hu : updateRoom (p :: ps) r f =
        (if p.1 = r then (p.1, f p.2) else p) :: updateRoom ps r f := rfl
    by_cases hp : p.1 = r
    · rw [hu, if_pos hp]
      by_cases hrr : r' = r
      · rw [lookupRoom_cons_pos (p.1, f p.2) (updateRoom ps r f) r' (hrr ▸ hp),
          if_pos hrr, lookupRoom_cons_pos p ps r hp]
        rfl
      · have hp' : p.1 ≠ r' := fun e => hrr (e ▸ hp ▸ rfl)
        rw [lookupRoom_cons_neg (p.1, f p.2) (updateRoom ps r f) r' hp', ih,
          if_neg hrr, if_neg hrr, lookupRoom_cons_neg p ps r' hp']
    · rw [hu, if_neg hp]
      by_cases hpr : p.1 = r'
      · have hrr : r' ≠ r := fun e => hp (hpr.trans e)
        rw [lookupRoom_cons_pos p (updateRoom ps r f) r' hpr, if_neg hrr,
          lookupRoom_cons_pos p ps r' hpr]
      · rw [lookupRoom_cons_neg p (updateRoom ps r f) r' hpr, ih]
        by_cases hrr : r' = r
        · rw [if_pos hrr, if_pos hrr, lookupRoom_cons_neg p ps r hp]
        · rw [if_neg hrr, if_neg hrr, lookupRoom_cons_neg p ps r' hpr]

theorem lookupRoom_append_self (rooms : RoomMap) (r : String) (cs : List Client)
    (hnone : lookupRoom rooms r = none) :
    lookupRoom (rooms ++ [(r, cs)]) r = some cs := by
  induction rooms with
  | nil => exact lookupRoom_cons_pos _ _ _ rfl
  | cons p ps ih =>
    by_cases hp : p.1 = r
    · rw [lookupRoom_cons_pos _ _ _ hp] at hnone
      exact absurd hnone (by simp)
    · rw [lookupRoom_cons_neg _ _ _ hp] at hnone
      rw [List.cons_append, lookupRoom_cons_neg _ _ _ hp]
      exact ih hnone

theorem lookupRoom_append_ne (rooms : RoomMap) (r r' : String) (cs : List Client)
    (hne : r' ≠ r) :
    lookupRoom (rooms ++ [(r, cs)]) r' = lookupRoom rooms r' := by
  induction rooms with
  | nil =>
    rw [List.nil_append, lookupRoom_nil, lookupRoom_cons_neg _ _ _ (fun e => hne e.symm)]
    rfl
  | cons p ps ih =>
    by_cases hp : p.1 = r'
    · rw [List.cons_append, lookupRoom_cons_pos _ _ _ hp, lookupRoom_cons_pos _ _ _ hp]
    · rw [List.cons_append, lookupRoom_cons_neg _ _ _ hp, lookupRoom_cons_neg _ _ _ hp]
      exact ih

theorem lookupRoom_eraseRoom (rooms : RoomMap) (r r' : String) :
    lookupRoom (eraseRoom rooms r) r' =
      if r' = r then none else lookupRoom rooms r' := by
  induction rooms with
  | nil =>
    by_cases hrr : r' = r <;> simp [eraseRoom, lookupRoom_nil, hrr]
  | cons p ps ih =>
    by_cases hp : p.1 = r
    · have he : eraseRoom (p :: ps) r = eraseRoom ps r := by
        unfold eraseRoom
        rw [List.filter_cons_of_neg (by simpa using hp)]
      rw [he, ih]
      by_cases hrr : r' = r
      · rw [if_pos hrr, if_pos hrr]
      · have hp' : p.1 ≠ r' := fun e => hrr (e.symm.trans hp)
        rw [if_neg hrr, if_neg hrr, lookupRoom_cons_neg p ps r' hp']
    · have he : eraseRoom (p :: ps) r = p :: eraseRoom ps r := by
        unfold eraseRoom
        rw [List.filter_cons_of_pos (by simpa using hp)]
      rw [he]
      by_cases hpr : p.1 = r'
      · have hrr : r' ≠ r := fun e => hp (hpr.trans e)
        rw [lookupRoom_cons_pos _ _ _ hpr, if_neg hrr, lookupRoom_cons_pos _ _ _ hpr]
      · rw [lookupRoom_cons_neg _ _ _ hpr, ih]
        by_cases hrr : r' = r
        · rw [if_pos hrr, if_pos hrr]
        · rw [if_neg hrr, if_neg hrr, lookupRoom_cons_neg _ _ _ hpr]

/- Single-step facts about the fan-out body `trySendOrEvict`. -/

theorem trySendOrEvict_chans_ne (room w : String) (h : Hub) (c d : Client)
    (hdc : d ≠ c) :
    (trySendOrEvict room w h c).chans d = h.chans d := by
  by_cases hlt : (h.chans c).buf.length < sendCap <;>
    simp [trySendOrEvict, setChan, hlt, hdc]

theorem trySendOrEvict_clients_mono (room w : String) (h : Hub) (c d : Client)
    (hd : d ∉ h.clients) :
    d ∉ (trySendOrEvict room w h c).clients := by
  by_cases hlt : (h.chans c).buf.length < sendCap
  · simpa [trySendOrEvict, setChan, hlt] using hd
  · simp only [trySendOrEvict, setChan, hlt, if_neg hlt, if_false,
      List.mem_filter, decide_eq_true_eq]
    exact fun hx => hd hx.1

theorem trySendOrEvict_rooms_cases (room w : String) (h : Hub) (c : Client) :
    (trySendOrEvict room w h c).rooms = h.rooms ∨
    (trySendOrEvict room w h c).rooms =
      updateRoom h.rooms room (fun cs => cs.filter (fun d => decide (d ≠ c))) := by
  by_cases hlt : (h.chans c).buf.length < sendCap
  · exact Or.inl (by simp [trySendOrEvict, setChan, hlt])
  · exact Or.inr (by simp [trySendOrEvict, setChan, hlt])

theorem trySendOrEvict_roomSet_mono (room w : String) (h : Hub) (c d : Client)
    (r : String) (hd : d ∉ h.roomSet r) :
    d ∉ (trySendOrEvict room w h c).roomSet r := by
  intro hmem
  apply hd
  rcases trySendOrEvict_rooms_cases room w h c with hro | hro
  · simpa [Hub.roomSet, hro] using hmem
  · simp only [Hub.roomSet, hro, lookupRoom_updateRoom] at hmem
    by_cases hrr : r = room
    · rw [if_pos hrr] at hmem
      simp only [Hub.roomSet, hrr]
      cases e : lookupRoom h.rooms room with
      | none => rw [e] at hmem; simp at hmem
      | some cs =>
        rw [e] at hmem
        simp only [Option.map_some', Option.getD_some, List.mem_filter,
          decide_eq_true_eq] at hmem
        simpa using hmem.1
    · rw [if_neg hrr] at hmem
      exact hmem

/- Facts about the full fan-out loop of `handleBroadcast`. -/

theorem foldl_evict_chans_frame (room w : String) (l : List Client) (h : Hub)
    (d : Client) (hd : d ∉ l) :
    (l.foldl (trySendOrEvict room w) h).chans d = h.chans d := by
  induction l generalizing h with
  | nil => rfl
  | cons c cs ih =>
    have hdc : d ≠ c := fun e => hd (e ▸ List.mem_cons_self c cs)
    have hdcs : d ∉ cs := fun hm => hd (List.mem_cons_of_mem c hm)
    rw [List.foldl_cons, ih _ hdcs, trySendOrEvict_chans_ne room w h c d hdc]

theorem foldl_evict_clients_mono (room w : String) (l : List Client) (h : Hub)
    (d : Client) (hd : d ∉ h.clients) :
    d ∉ (l.foldl (trySendOrEvict room w) h).clients := by
  induction l generalizing h with
  | nil => exact hd
  | cons c cs ih =>
    rw [List.foldl_cons]
    exact ih _ (trySendOrEvict_clients_mono room w h c d hd)

theorem foldl_evict_roomSet_mono (room w : String) (l : List Client) (h : Hub)
    (d : Client) (r : String) (hd : d ∉ h.roomSet r) :
    d ∉ (l.foldl (trySendOrEvict room w) h).roomSet r := by
  induction l generalizing h with
  | nil => exact hd
  | cons c cs ih =>
    rw [List.foldl_cons]
    exact ih _ (trySendOrEvict_roomSet_mono room w h c d r hd)

theorem foldl_evict_mem (room w : String) (l : List Client) (h : Hub)
    (hnd : l.Nodup) (c : Client) (hc : c ∈ l) :
    (sendCap ≤ (h.chans c).buf.length →
      ((l.foldl (trySendOrEvict room w) h).chans c).closed = true ∧
      ((l.foldl (trySendOrEvict room w) h).chans c).buf = (h.chans c).buf ∧
      c ∉ (l.foldl (trySendOrEvict room w) h).clients ∧
      c ∉ (l.foldl (trySendOrEvict room w) h).roomSet room) ∧
    ((h.chans c).buf.length < sendCap →
      ((l.foldl (trySendOrEvict room w) h).chans c).buf = (h.chans c).buf ++ [w] ∧
      ((l.foldl (trySendOrEvict room w) h).chans c).closed = (h.chans c).closed) := by
  revert hnd hc
  induction l generalizing h with
  | nil => intro _ hc; cases hc
  | cons c0 cs ih =>
    intro hnd hc
    rw [List.nodup_cons] at hnd
    rcases List.mem_cons.mp hc with rfl | hmem
    · rw [List.foldl_cons]
      constructor
      · intro hfull
        have hnlt : ¬ (h.chans c).buf.length < sendCap := not_lt.mpr hfull
        have hch : (trySendOrEvict room w h c).chans c =
            { h.chans c with closed := true } := by
          simp [trySendOrEvict, setChan, hnlt]
        have hcl : c ∉ (trySendOrEvict room w h c).clients := by
          simp only [trySendOrEvict, setChan, if_neg hnlt, List.mem_filter,
            decide_eq_true_eq]
          exact fun hx => hx.2 rfl
        have hrs : c ∉ (trySendOrEvict room w h c).roomSet room := by
          have hro : (trySendOrEvict room w h c).rooms =
              updateRoom h.rooms room (fun cs' => cs'.filter (fun d => decide (d ≠ c))) := by
            simp [trySendOrEvict, setChan, hnlt]
          intro hmem2
          have heq := lookupRoom_updateRoom h.rooms room room
            (fun cs' => cs'.filter (fun d => decide (d ≠ c)))
          rw [if_pos rfl] at heq
          simp only [Hub.roomSet, hro, heq] at hmem2
          cases e : lookupRoom h.rooms room with
          | none => rw [e] at hmem2; simp at hmem2
          | some cs' =>
            rw [e] at hmem2
            simp only [Option.map_some', Option.getD_some, List.mem_filter,
              decide_eq_true_eq] at hmem2
            exact hmem2.2 rfl
        refine ⟨?_, ?_, ?_, ?_⟩
        · rw [foldl_evict_chans_frame room w cs _ c hnd.1, hch]
        · rw [foldl_evict_chans_frame room w cs _ c hnd.1, hch]
        · exact foldl_evict_clients_mono room w cs _ c hcl
        · exact foldl_evict_roomSet_mono room w cs _ c room hrs
      · intro hlt
        have hch : (trySendOrEvict room w h c).chans c =
            { h.chans c with buf := (h.chans c).buf ++ [w] } := by
          simp [trySendOrEvict, setChan, hlt]
        constructor <;> rw [foldl_evict_chans_frame room w cs _ c hnd.1, hch]
    · have hc0 : c ≠ c0 := fun e => hnd.1 (e ▸ hmem)
      rw [List.foldl_cons]
      have hstep := trySendOrEvict_chans_ne room w h c0 c hc0
      have hih := ih (trySendOrEvict room w h c0) hnd.2 hmem
      rw [hstep] at hih
      exact hih

theorem handleBroadcast_chans_frame (ser : Message → Option String) (h : Hub)
    (msg : Message) (d : Client) (hd : d ∉ h.roomSet msg.room) :
    (handleBroadcast ser h msg).chans d = h.chans d := by
  unfold handleBroadcast
  cases ser msg with
  | none => rfl
  | some w =>
    cases e : lookupRoom h.rooms msg.room with
    | none => rfl
    | some cs =>
      apply foldl_evict_chans_frame
      intro hmem
      apply hd
      simp only [Hub.roomSet, e, Option.getD_some]
      exact hmem

theorem handleBroadcast_clients_mono (ser : Message → Option String) (h : Hub)
    (msg : Message) (d : Client) (hd : d ∉ h.clients) :
    d ∉ (handleBroadcast ser h msg).clients := by
  unfold handleBroadcast
  cases ser msg with
  | none => exact hd
  | some w =>
    cases e : lookupRoom h.rooms msg.room with
    | none => exact hd
    | some cs => exact foldl_evict_clients_mono _ _ cs h d hd

theorem handleBroadcast_roomSet_mono (ser : Message → Option String) (h : Hub)
    (msg : Message) (d : Client) (r : String) (hd : d ∉ h.roomSet r) :
    d ∉ (handleBroadcast ser h msg).roomSet r := by
  unfold handleBroadcast
  cases ser msg with
  | none => exact hd
  | some w =>
    cases e : lookupRoom h.rooms msg.room with
    | none => exact hd
    | some cs => exact foldl_evict_roomSet_mono _ _ cs h d r hd

/- Membership invariant of the Hub state: every registered client is in its
own room's set, and every member of a room entry is a client of exactly that
room and is registered globally. -/

def HubInv (h : Hub) : Prop :=
  (∀ d ∈ h.clients, d ∈ h.roomSet d.room) ∧
  (∀ p ∈ h.rooms, ∀ d ∈ p.2, p.1 = d.room ∧ d ∈ h.clients)

instance (h : Hub) : Decidable (HubInv h) := by
  unfold HubInv; infer_instance

theorem HubInv_roomSet_mem (h : Hub) (hInv : HubInv h) (d : Client) (r : String)
    (hd : d ∈ h.roomSet r) : r = d.room ∧ d ∈ h.clients := by
  unfold Hub.roomSet at hd
  cases e : lookupRoom h.rooms r with
  | none => rw [e] at hd; cases hd
  | some cs =>
    rw [e, Option.getD_some] at hd
    unfold lookupRoom at e
    cases ef : h.rooms.find? (fun p => decide (p.1 = r)) with
    | none => rw [ef] at e; cases e
    | some p =>
      rw [ef] at e
      have hpr : p.1 = r := by simpa using List.find?_some ef
      have hpm : p ∈ h.rooms := List.mem_of_find?_eq_some ef
      have hpcs : p.2 = cs := by simpa using e
      exact hpr ▸ (hInv.2 p hpm d (hpcs ▸ hd))

/- Set-insertion facts. -/

theorem addClient_mem (cs : List Client) (c : Client) : c ∈ addClient cs c := by
  unfold addClient
  split
  · assumption
  · simp

theorem addClient_sup (cs : List Client) (c d : Client) (hd : d ∈ cs) :
    d ∈ addClient cs c := by
  unfold addClient
  split
  · exact hd
  · exact List.mem_append_left _ hd

theorem addClient_cases (cs : List Client) (c d : Client)
    (hd : d ∈ addClient cs c) : d = c ∨ d ∈ cs := by
  unfold addClient at hd
  split at hd
  · exact Or.inr hd
  · rcases List.mem_append.mp hd with h1 | h1
    · exact Or.inr h1
    · simp only [List.mem_singleton] at h1
      exact Or.inl h1

/- Invariant preservation by the removal of one client from the global set
and from its own room's set (the shape shared by `handleUnregister` and by
the eviction branch of the fan-out loop). -/

theorem removeClient_Inv (h : Hub) (c : Client) (hInv : HubInv h) :
    HubInv { h with
      clients := h.clients.filter (fun d => decide (d ≠ c)),
      rooms := updateRoom h.rooms c.room (fun cs => cs.filter (fun d => decide (d ≠ c))) } := by
  constructor
  · intro d hd
    simp only [List.mem_filter, decide_eq_true_eq] at hd
    have h1 := hInv.1 d hd.1
    simp only [Hub.roomSet, lookupRoom_updateRoom]
    by_cases hrr : d.room = c.room
    · rw [if_pos hrr]
      cases e : lookupRoom h.rooms c.room with
      | none =>
        rw [Hub.roomSet, hrr, e] at h1; cases h1
      | some cs =>
        simp only [Option.map_some', Option.getD_some, List.mem_filter,
          decide_eq_true_eq]
        refine ⟨?_, hd.2⟩
        rw [Hub.roomSet, hrr, e, Option.getD_some] at h1
        exact h1
    · rw [if_neg hrr]
      exact h1
  · intro p hp d hd
    simp only [updateRoom, List.mem_map] at hp
    obtain ⟨q, hq, rfl⟩ := hp
    by_cases hqr : q.1 = c.room
    · rw [if_pos hqr] at hd ⊢
      simp only [List.mem_filter, decide_eq_true_eq] at hd
      have := hInv.2 q hq d hd.1
      refine ⟨this.1, ?_⟩
      simp only [List.mem_filter, decide_eq_true_eq]
      exact ⟨this.2, hd.2⟩
    · rw [if_neg hqr] at hd ⊢
      have := hInv.2 q hq d hd
      have hdc : d ≠ c := fun e => hqr (by rw [this.1, e])
      refine ⟨this.1, ?_⟩
      simp only [List.mem_filter, decide_eq_true_eq]
      exact ⟨this.2, hdc⟩

theorem trySendOrEvict_HubInv (room w : String) (h : Hub) (c : Client)
    (hc : c.room = room) (hInv : HubInv h) :
    HubInv (trySendOrEvict room w h c) := by
  by_cases hlt : (h.chans c).buf.length < sendCap
  · have he : trySendOrEvict room w h c =
        setChan h c { h.chans c with buf := (h.chans c).buf ++ [w] } := by
      simp [trySendOrEvict, hlt]
    rw [he]
    exact hInv
  · have he : trySendOrEvict room w h c =
        { setChan h c { h.chans c with closed := true } with
          clients := h.clients.filter (fun d => decide (d ≠ c)),
          rooms := updateRoom h.rooms room (fun cs => cs.filter (fun d => decide (d ≠ c))) } := by
      simp [trySendOrEvict, setChan, hlt]
    rw [he, ← hc]
    exact removeClient_Inv (setChan h c { h.chans c with closed := true }) c hInv

theorem foldl_evict_HubInv (room w : String) (l : List Client) :
    ∀ h : Hub, (∀ c ∈ l, c.room = room) → HubInv h →
      HubInv (l.foldl (trySendOrEvict room w) h) := by
  induction l with
  | nil => intro h _ hInv; exact hInv
  | cons c cs ih =>
    intro h hl hInv
    rw [List.foldl_cons]
    exact ih _ (fun d hd => hl d (List.mem_cons_of_mem c hd))
      (trySendOrEvict_HubInv room w h c (hl c (List.mem_cons_self c cs)) hInv)

theorem handleBroadcast_HubInv (ser : Message → Option String) (h : Hub)
    (msg : Message) (hInv : HubInv h) :
    HubInv (handleBroadcast ser h msg) := by
  unfold handleBroadcast
  cases ser msg with
  | none => exact hInv
  | some w =>
    cases e : lookupRoom h.rooms msg.room with
    | none => exact hInv
    | some cs =>
      apply foldl_evict_HubInv _ _ cs h _ hInv
      intro c hcmem
      have hcr : c ∈ h.roomSet msg.room := by
        simp only [Hub.roomSet, e, Option.getD_some]
        exact hcmem
      exact (HubInv_roomSet_mem h hInv c msg.room hcr).1.symm

/- Register: lookup facts and invariant preservation. -/

theorem lookupRoom_registerAdd_self (h : Hub) (c : Client) :
    lookupRoom (registerAdd h c).rooms c.room =
      some (addClient (h.roomSet c.room) c) := by
  show lookupRoom (updateRoom
      (if (lookupRoom h.rooms c.room).isSome then h.rooms
        else h.rooms ++ [(c.room, [])]) c.room (fun cs => addClient cs c))
      c.room = _
  rw [lookupRoom_updateRoom, if_pos rfl]
  cases e : lookupRoom h.rooms c.room with
  | none =>
    rw [if_neg (by simp), lookupRoom_append_self h.rooms c.room [] e]
    simp [Hub.roomSet, e]
  | some cs =>
    rw [if_pos (by simp), e]
    simp [Hub.roomSet, e]

theorem lookupRoom_registerAdd_ne (h : Hub) (c : Client) (r : String)
    (hr : r ≠ c.room) :
    lookupRoom (registerAdd h c).rooms r = lookupRoom h.rooms r := by
  show lookupRoom (updateRoom
      (if (lookupRoom h.rooms c.room).isSome then h.rooms
        else h.rooms ++ [(c.room, [])]) c.room (fun cs => addClient cs c))
      r = _
  rw [lookupRoom_updateRoom, if_neg hr]
  by_cases hs : (lookupRoom h.rooms c.room).isSome
  · rw [if_pos hs]
  · rw [if_neg hs, lookupRoom_append_ne h.rooms c.room r [] hr]

theorem registerAdd_HubInv (h : Hub) (c : Client) (hInv : HubInv h) :
    HubInv (registerAdd h c) := by
  constructor
  · intro d hd
    have hcl : (registerAdd h c).clients = addClient h.clients c := rfl
    rw [hcl] at hd
    rcases addClient_cases _ _ _ hd with rfl | hdm
    · simp only [Hub.roomSet, lookupRoom_registerAdd_self, Option.getD_some]
      exact addClient_mem _ _
    · have h1 := hInv.1 d hdm
      by_cases hrr : d.room = c.room
      · simp only [Hub.roomSet, hrr, lookupRoom_registerAdd_self, Option.getD_some]
        apply addClient_sup
        rw [Hub.roomSet, hrr] at h1
        exact h1
      · simp only [Hub.roomSet, lookupRoom_registerAdd_ne h c d.room hrr]
        exact h1
  · intro p hp d hd
    have hro : (registerAdd h c).rooms =
        updateRoom (if (lookupRoom h.rooms c.room).isSome then h.rooms
          else h.rooms ++ [(c.room, [])]) c.room (fun cs => addClient cs c) := rfl
    rw [hro] at hp
    simp only [updateRoom, List.mem_map] at hp
    obtain ⟨q, hq, rfl⟩ := hp
    have hq' : q ∈ h.rooms ∨ q = (c.room, ([] : List Client)) := by
      by_cases hs : (lookupRoom h.rooms c.room).isSome
      · rw [if_pos hs] at hq; exact Or.inl hq
      · rw [if_neg hs] at hq
        rcases List.mem_append.mp hq with h1 | h1
        · exact Or.inl h1
        · right; simpa using h1
    by_cases hqr : q.1 = c.room
    · rw [if_pos hqr] at hd ⊢
      rcases addClient_cases _ _ _ hd with rfl | hdm
      · exact ⟨hqr, addClient_mem _ _⟩
      · rcases hq' with hqm | rfl
        · have h2 := hInv.2 q hqm d hdm
          exact ⟨h2.1, addClient_sup _ _ _ h2.2⟩
        · cases hdm
    · rw [if_neg hqr] at hd ⊢
      rcases hq' with hqm | rfl
      · have h2 := hInv.2 q hqm d hd
        exact ⟨h2.1, addClient_sup _ _ _ h2.2⟩
      · exact absurd rfl hqr

/- Unregister: invariant preservation. -/

theorem eraseRoom_HubInv (h : Hub) (r : String) (he : h.roomSet r = [])
    (hInv : HubInv h) :
    HubInv { h with rooms := eraseRoom h.rooms r } := by
  constructor
  · intro d hd
    have h1 := hInv.1 d hd
    by_cases hrr : d.room = r
    · rw [hrr] at h1
      rw [he] at h1
      cases h1
    · show d ∈ (lookupRoom (eraseRoom h.rooms r) d.room).getD []
      rw [lookupRoom_eraseRoom, if_neg hrr]
      exact h1
  · intro p hp d hd
    exact hInv.2 p (List.mem_of_mem_filter hp) d hd

theorem handleUnregister_HubInv (ser : Message → Option String) (h : Hub)
    (c : Client) (hInv : HubInv h) :
    HubInv (handleUnregister ser h c).1 := by
  by_cases hc : c ∈ h.clients
  · have hInv3 : HubInv (handleBroadcast ser
        (handleBroadcast ser
          { h with
            clients := h.clients.filter (fun d => decide (d ≠ c)),
            rooms := updateRoom h.rooms c.room (fun cs => cs.filter (fun d => decide (d ≠ c))) }
          (userLeftMsg c))
        (broadcastRoomUsersMsg (handleBroadcast ser
          { h with
            clients := h.clients.filter (fun d => decide (d ≠ c)),
            rooms := updateRoom h.rooms c.room (fun cs => cs.filter (fun d => decide (d ≠ c))) }
          (userLeftMsg c)) c.room)) :=
      handleBroadcast_HubInv ser _ _
        (handleBroadcast_HubInv ser _ _ (removeClient_Inv h c hInv))
    simp only [handleUnregister, if_pos hc]
    split
    · rename_i hemp
      exact eraseRoom_HubInv _ c.room (by simpa using hemp) hInv3
    · exact hInv3
  · simp only [handleUnregister, if_neg hc]
    exact hInv

/-- C8: if serialization of a message fails during Route, the message is
delivered to no worker and the whole Hub state — membership and every
channel — is left unchanged; the routing step synthesizes no broadcasts and
returns normally. -/
theorem route_serialization_failure_drops (ser : Message → Option String)
    (h : Hub) (msg : Message) (hser : ser msg = none) :
    handleBroadcast ser h msg = h ∧
    (routeMessage ser h msg).1 = h ∧ (routeMessage ser h msg).2 = [] := by
  have hb : handleBroadcast ser h msg = h := by
    unfold handleBroadcast
    rw [hser]
  exact ⟨hb, hb, rfl⟩

/-- Witness for C8 with a failing serializer at a concrete state. -/
theorem route_serialization_failure_drops_witness :
    (fun _ : Message => (none : Option String)) chatMsg = none ∧
    (handleBroadcast (fun _ => none) hubIso chatMsg = hubIso ∧
      (routeMessage (fun _ => none) hubIso chatMsg).1 = hubIso ∧
      (routeMessage (fun _ => none) hubIso chatMsg).2 = []) :=
  ⟨rfl, route_serialization_failure_drops (fun _ => none) hubIso chatMsg rfl⟩

/-- C4: a message routed to room R is enqueued only into channels of workers
in R's set — the channel of any worker outside R's current set is completely
unchanged by the Route step. -/
theorem route_room_isolation (ser : Message → Option String) (h : Hub)
    (msg : Message) (d : Client) (hd : d ∉ h.roomSet msg.room) :
    (handleBroadcast ser h msg).chans d = h.chans d :=
  handleBroadcast_chans_frame ser h msg d hd

/-- Witness for C4: carol (room "attic") is untouched by a lobby chat. -/
theorem route_room_isolation_witness :
    carol ∉ hubIso.roomSet chatMsg.room ∧
    (handleBroadcast jsonMarshal hubIso chatMsg).chans carol = hubIso.chans carol :=
  ⟨by decide, route_room_isolation jsonMarshal hubIso chatMsg carol (by decide)⟩

/-- C2: during Route of a message to room R, every member whose bounded
outbound queue cannot accept the message is evicted in the same routing
step — its channel is closed with its buffered contents unaltered and it is
removed from both the global set and R's set — while the step synthesizes no
`user_left` or `online_users` broadcast, and every member whose queue has
capacity still has the serialized message enqueued. -/
theorem route_backpressure_eviction (ser : Message → Option String) (h : Hub)
    (msg : Message) (w : String) (cs : List Client)
    (hser : ser msg = some w)
    (hroom : lookupRoom h.rooms msg.room = some cs)
    (hnd : cs.Nodup) :
    (routeMessage ser h msg).2 = [] ∧
    ∀ c ∈ cs,
      (sendCap ≤ (h.chans c).buf.length →
        ((handleBroadcast ser h msg).chans c).closed = true ∧
        ((handleBroadcast ser h msg).chans c).buf = (h.chans c).buf ∧
        c ∉ (handleBroadcast ser h msg).clients ∧
        c ∉ (handleBroadcast ser h msg).roomSet msg.room) ∧
      ((h.chans c).buf.length < sendCap →
        ((handleBroadcast ser h msg).chans c).buf = (h.chans c).buf ++ [w] ∧
        ((handleBroadcast ser h msg).chans c).closed = (h.chans c).closed) := by
  refine ⟨rfl, ?_⟩
  intro c hc
  have hb : handleBroadcast ser h msg = cs.foldl (trySendOrEvict msg.room w) h := by
    unfold handleBroadcast
    rw [hser, hroom]
  rw [hb]
  exact foldl_evict_mem msg.room w cs h hnd c hc

set_option maxRecDepth 100000 in
/-- Witness for C2: alice (saturated queue) is evicted and closed, bob still
receives the chat. -/
theorem route_backpressure_eviction_witness :
    sendCap ≤ (hubTwo.chans alice).buf.length ∧
    (hubTwo.chans bob).buf.length < sendCap ∧
    ((handleBroadcast jsonMarshal hubTwo chatMsg).chans alice).closed = true ∧
    alice ∉ (handleBroadcast jsonMarshal hubTwo chatMsg).clients ∧
    alice ∉ (handleBroadcast jsonMarshal hubTwo chatMsg).roomSet chatMsg.room ∧
    ((handleBroadcast jsonMarshal hubTwo chatMsg).chans bob).buf = [wChat] := by
  have h := route_backpressure_eviction jsonMarshal hubTwo chatMsg wChat
    [alice, bob] rfl rfl (by decide)
  have ha := (h.2 alice (by decide)).1 (by decide)
  have hb := (h.2 bob (by decide)).2 (by decide)
  refine ⟨by decide, by decide, ha.1, ha.2.2.1, ha.2.2.2, ?_⟩
  rw [hb.1]
  rfl

/-- Removal of a client from its own room's set removes it from the room set
of the resulting state. -/
theorem roomSet_removeSelf_not_mem (h : Hub) (c : Client) :
    c ∉ ({ h with
      clients := h.clients.filter (fun d => decide (d ≠ c)),
      rooms := updateRoom h.rooms c.room
        (fun cs => cs.filter (fun d => decide (d ≠ c))) } : Hub).roomSet c.room := by
  intro hmem
  have heq := lookupRoom_updateRoom h.rooms c.room c.room
    (fun cs => cs.filter (fun d => decide (d ≠ c)))
  rw [if_pos rfl] at heq
  simp only [Hub.roomSet, heq] at hmem
  cases e : lookupRoom h.rooms c.room with
  | none => rw [e] at hmem; simp at hmem
  | some cs =>
    rw [e] at hmem
    simp only [Option.map_some', Option.getD_some, List.mem_filter,
      decide_eq_true_eq] at hmem
    exact hmem.2 rfl

/-- C10: `handleUnregister` removes the worker from the membership state
before emitting the `user_left` and roster broadcasts, so the departing
worker's own outbound channel never receives either: its channel state after
the Deregister is exactly what it was before. -/
theorem unregister_no_self_delivery (ser : Message → Option String) (h : Hub)
    (c : Client) :
    (handleUnregister ser h c).1.chans c = h.chans c := by
  by_cases hc : c ∈ h.clients
  · have hc1 := roomSet_removeSelf_not_mem h c
    have e2 := handleBroadcast_chans_frame ser _ (userLeftMsg c) c hc1
    have hc2 := handleBroadcast_roomSet_mono ser _ (userLeftMsg c) c c.room hc1
    have e3 := handleBroadcast_chans_frame ser
      (handleBroadcast ser
        { h with
          clients := h.clients.filter (fun d => decide (d ≠ c)),
          rooms := updateRoom h.rooms c.room (fun cs => cs.filter (fun d => decide (d ≠ c))) }
        (userLeftMsg c))
      (broadcastRoomUsersMsg (handleBroadcast ser
        { h with
          clients := h.clients.filter (fun d => decide (d ≠ c)),
          rooms := updateRoom h.rooms c.room (fun cs => cs.filter (fun d => decide (d ≠ c))) }
        (userLeftMsg c)) c.room) c hc2
    simp only [handleUnregister, if_pos hc]
    split
    · exact e3.trans e2
    · exact e3.trans e2
  · simp only [handleUnregister, if_neg hc]

/-- C5: deregistering an unknown worker is a strict no-op, producing no state
change and no broadcasts; deregistering a known worker removes it from the
global set and from its room's set and synthesizes exactly one `user_left`
broadcast followed by one `online_users` broadcast for its room. -/
theorem unregister_spec (ser : Message → Option String) (h : Hub) (c : Client) :
    (c ∉ h.clients → handleUnregister ser h c = (h, [])) ∧
    (c ∈ h.clients →
      c ∉ (handleUnregister ser h c).1.clients ∧
      c ∉ (handleUnregister ser h c).1.roomSet c.room ∧
      ∃ m, (handleUnregister ser h c).2 = [userLeftMsg c, m] ∧
        (userLeftMsg c).type = "user_left" ∧ (userLeftMsg c).room = c.room ∧
        m.type = "online_users" ∧ m.room = c.room ∧ m.username = "") := by
  constructor
  · intro hc
    simp only [handleUnregister, if_neg hc]
  · intro hc
    have hcl1 : c ∉ ({ h with
        clients := h.clients.filter (fun d => decide (d ≠ c)),
        rooms := updateRoom h.rooms c.room
          (fun cs => cs.filter (fun d => decide (d ≠ c))) } : Hub).clients := by
      simp only [List.mem_filter, decide_eq_true_eq]
      exact fun hx => hx.2 rfl
    have hrs1 := roomSet_removeSelf_not_mem h c
    have hcl2 := handleBroadcast_clients_mono ser _ (userLeftMsg c) c hcl1
    have hrs2 := handleBroadcast_roomSet_mono ser _ (userLeftMsg c) c c.room hrs1
    have hcl3 := handleBroadcast_clients_mono ser _
      (broadcastRoomUsersMsg (handleBroadcast ser
        { h with
          clients := h.clients.filter (fun d => decide (d ≠ c)),
          rooms := updateRoom h.rooms c.room (fun cs => cs.filter (fun d => decide (d ≠ c))) }
        (userLeftMsg c)) c.room) c hcl2
    have hrs3 := handleBroadcast_roomSet_mono ser _
      (broadcastRoomUsersMsg (handleBroadcast ser
        { h with
          clients := h.clients.filter (fun d => decide (d ≠ c)),
          rooms := updateRoom h.rooms c.room (fun cs => cs.filter (fun d => decide (d ≠ c))) }
        (userLeftMsg c)) c.room) c c.room hrs2
    simp only [handleUnregister, if_pos hc]
    refine ⟨?_, ?_, _, rfl, rfl, rfl, rfl, rfl, rfl⟩
    · split
      · exact hcl3
      · exact hcl3
    · split
      · show c ∉ (lookupRoom (eraseRoom _ c.room) c.room).getD []
        rw [lookupRoom_eraseRoom, if_pos rfl]
        simp
      · exact hrs3

/-- Witness for C5: deregistering alice from the two-room hub. -/
theorem unregister_spec_witness :
    alice ∈ hubIso.clients ∧
    (alice ∉ (handleUnregister jsonMarshal hubIso alice).1.clients ∧
      alice ∉ (handleUnregister jsonMarshal hubIso alice).1.roomSet alice.room ∧
      ∃ m, (handleUnregister jsonMarshal hubIso alice).2 = [userLeftMsg alice, m] ∧
        (userLeftMsg alice).type = "user_left" ∧
        (userLeftMsg alice).room = alice.room ∧
        m.type = "online_users" ∧ m.room = alice.room ∧ m.username = "") :=
  ⟨by decide, (unregister_spec jsonMarshal hubIso alice).2 (by decide)⟩

/-- C6: every `online_users` roster message built for a room has the
`online_users` type, an empty username field, and content equal to the
comma-join of a permutation of the usernames of exactly the workers
currently in that room's set. -/
theorem online_users_roster_accuracy (h : Hub) (r : String) :
    (broadcastRoomUsersMsg h r).type = "online_users" ∧
    (broadcastRoomUsersMsg h r).username = "" ∧
    ∃ l : List String, l.Perm ((h.roomSet r).map (fun c => c.username)) ∧
      (broadcastRoomUsersMsg h r).content = String.intercalate "," l := by
  refine ⟨rfl, rfl, (h.roomSet r).map (fun c => c.username), ?_, ?_⟩
  · exact List.Perm.refl _
  · rfl

/-- C7: the membership invariant — every registered worker is in its own
room's set, every room-entry member is a worker of exactly that room and is
registered globally (so no worker is ever in two room sets or in a room set
without global registration) — is preserved by Register, Deregister and
Route (evictions included). -/
theorem membership_invariant_preserved (ser : Message → Option String)
    (h : Hub) (c : Client) (msg : Message) (hInv : HubInv h) :
    HubInv (handleRegister ser h c).1 ∧
    HubInv (handleUnregister ser h c).1 ∧
    HubInv (handleBroadcast ser h msg) ∧
    (∀ d ∈ h.clients, d ∈ h.roomSet d.room ∧ ∀ r, d ∈ h.roomSet r → r = d.room) := by
  refine ⟨?_, handleUnregister_HubInv ser h c hInv,
    handleBroadcast_HubInv ser h msg hInv, ?_⟩
  · exact handleBroadcast_HubInv ser (registerAdd h c)
      (broadcastRoomUsersMsg (registerAdd h c) c.room) (registerAdd_HubInv h c hInv)
  · intro d hd
    exact ⟨hInv.1 d hd, fun r hr => (HubInv_roomSet_mem h hInv d r hr).1⟩

/-- Witness for C7 at a concrete invariant-satisfying state. -/
theorem membership_invariant_preserved_witness :
    HubInv hubIso ∧
    (HubInv (handleRegister jsonMarshal hubIso bob).1 ∧
      HubInv (handleUnregister jsonMarshal hubIso bob).1 ∧
      HubInv (handleBroadcast jsonMarshal hubIso chatMsg) ∧
      (∀ d ∈ hubIso.clients, d ∈ hubIso.roomSet d.room ∧
        ∀ r, d ∈ hubIso.roomSet r → r = d.room)) :=
  ⟨by decide, membership_invariant_preserved jsonMarshal hubIso bob chatMsg (by decide)⟩

/-- C3 counterexample: the claim says Register broadcasts `user_joined`
followed by `online_users`; at a concrete admission the broadcast order is
`online_users` first (emitted by `handleRegister`) and `user_joined` second
(routed by `HandleWebSocket` after registration completes). -/
theorem register_broadcast_order_counterexample :
    (handleWebSocket jsonMarshal hubEmpty alice).2.map (fun m => m.type) =
      ["online_users", "user_joined"] ∧
    (handleWebSocket jsonMarshal hubEmpty alice).2.map (fun m => m.type) ≠
      ["user_joined", "online_users"] := by
  constructor <;> decide

/-- C3 amended: every successful admission adds the worker to both the global
set and its room's set and then synthesizes exactly one `online_users`
roster followed by one `user_joined` broadcast for that room — the
`user_joined` is sent by the admission handler through the Route intake
after Register has completed, so the order is roster first. -/
theorem admission_adds_then_broadcasts (ser : Message → Option String)
    (h : Hub) (c : Client) :
    c ∈ (registerAdd (setChan h c { buf := [], closed := false }) c).clients ∧
    c ∈ (registerAdd (setChan h c { buf := [], closed := false }) c).roomSet c.room ∧
    ∃ m, (handleWebSocket ser h c).2 = [m, userJoinedMsg c] ∧
      m.type = "online_users" ∧ m.room = c.room ∧ m.username = "" ∧
      (userJoinedMsg c).type = "user_joined" ∧ (userJoinedMsg c).room = c.room := by
  refine ⟨addClient_mem _ _, ?_, ?_⟩
  · simp only [Hub.roomSet, lookupRoom_registerAdd_self, Option.getD_some]
    exact addClient_mem _ _
  · exact ⟨_, rfl, rfl, rfl, rfl, rfl, rfl⟩

/-- C1 amended: Register creates the room entry lazily (the entry exists
right after the add), and a graceful Deregister restores the entry-iff-
non-empty property at the leaver's room — afterwards the entry is deleted or
its set is non-empty; full-queue eviction during Route, however, does not
delete a room entry it empties (see the counterexample). -/
theorem room_lifecycle_amended (ser : Message → Option String) (h : Hub)
    (c : Client) :
    (lookupRoom (registerAdd h c).rooms c.room).isSome = true ∧
    (c ∈ h.clients →
      lookupRoom (handleUnregister ser h c).1.rooms c.room = none ∨
      (handleUnregister ser h c).1.roomSet c.room ≠ []) := by
  constructor
  · rw [lookupRoom_registerAdd_self]
    rfl
  · intro hc
    simp only [handleUnregister, if_pos hc]
    split
    · left
      rw [lookupRoom_eraseRoom, if_pos rfl]
    · right
      rename_i hemp
      intro he
      exact hemp (by rw [he]; rfl)

/-- Witness for C1 (amended) at a concrete known worker. -/
theorem room_lifecycle_amended_witness :
    alice ∈ hubIso.clients ∧
    (lookupRoom (handleUnregister jsonMarshal hubIso alice).1.rooms alice.room = none ∨
      (handleUnregister jsonMarshal hubIso alice).1.roomSet alice.room ≠ []) :=
  ⟨by decide, (room_lifecycle_amended jsonMarshal hubIso alice).2 (by decide)⟩

set_option maxRecDepth 100000 in
/-- C1 counterexample: in a reachable state (admit alice into "lobby", route
254 chats so her queue holds 256 pending writes), one more Route evicts the
last member of "lobby" yet leaves the empty room entry in the mapping — the
entry exists while its worker set is empty. -/
theorem route_eviction_leaves_empty_room :
    hubSaturated.roomSet "lobby" = [alice] ∧
    lookupRoom (routeMessage jsonMarshal hubSaturated chatMsg).1.rooms "lobby" =
      some [] := by
  constructor <;> decide
